import Mathlib

/-!
Verification of the retrieval core in `rag_system.py`: the sentence-aware
`TextChunker`, the TF-IDF `SimpleVectorStore`, and the orchestrating
`RAGSystem`.

Modelling conventions:
* Python strings are `List Char` (`Text` below); string literals are written
  with `String.toList`.
* Python floats (term frequencies, scores, `math.log`) are idealised: term
  frequencies are exact rationals (`count / total` over `ℚ`) and scores/IDF
  live in `ℝ` with `Real.log` for `math.log`.
* Python dicts whose key sets matter are association lists; a chunk dict is
  the record `DocEntry`, with `Option` fields for the keys (`document_id`,
  `tokens`, `tf`, `score`) that are only present after certain operations.
* `hashlib.md5` is an external library; it is abstracted as an arbitrary
  deterministic function `hashFn : Text → Text` supplied as a parameter.
* Python's `list.sort(reverse=True, key=lambda x: x[0])` is a stable
  descending sort; it is modelled by `List.mergeSort` (a stable sort) with
  the comparator `b.1 ≤ a.1`.
-/

open List

namespace RagSystem

abbrev Text := List Char

/-! ### Tokenisation — `SimpleVectorStore._tokenize`

The source lower-cases the text and runs
`re.findall(r'\b[a-zA-Zà-ÿÀ-Ÿ0-9]+\b', text)`, keeping words of length > 2.
The character class is ASCII alphanumerics plus the code-point range
U+00C0..U+0178 (`À`..`Ÿ`, which contains `à`..`ÿ`). A word boundary `\b`
holds where a word character meets a non-word character; word characters
outside the class are modelled by the underscore (the only additional
word character occurring in ASCII text). -/

/-- Python `str.lower()` restricted to ASCII and Latin-1 letters (the only
characters exercised here): uppercase ASCII and `À`..`Þ` (except `×`) move
down by 32 code points. -/
def pyLower (c : Char) : Char :=
  if 65 ≤ c.toNat ∧ c.toNat ≤ 90 then Char.ofNat (c.toNat + 32)
  else if 0xC0 ≤ c.toNat ∧ c.toNat ≤ 0xDE ∧ c.toNat ≠ 0xD7 then Char.ofNat (c.toNat + 32)
  else c

/-- Membership in the regex character class `[a-zA-Zà-ÿÀ-Ÿ0-9]`
(`à-ÿ` = U+00E0..U+00FF is contained in `À-Ÿ` = U+00C0..U+0178). -/
def isTokenChar (c : Char) : Bool :=
  decide ((97 ≤ c.toNat ∧ c.toNat ≤ 122) ∨ (65 ≤ c.toNat ∧ c.toNat ≤ 90) ∨
    (48 ≤ c.toNat ∧ c.toNat ≤ 57) ∨ (0xC0 ≤ c.toNat ∧ c.toNat ≤ 0x178))

/-- Word characters for the `\b` boundary test: the class characters plus
underscore. -/
def isWordChar (c : Char) : Bool :=
  isTokenChar c || decide (c = '_')

/-- Left-boundary test for a run: the character before the run (if any)
must not be a word character. -/
def okBefore : Option Char → Bool
  | none => true
  | some p => ! isWordChar p

/-- Source `re.findall(r'\b[a-zA-Zà-ÿÀ-Ÿ0-9]+\b', _)`: maximal runs of class
characters whose neighbouring characters (if any) are not word characters.
State: `beforeRun` is the character preceding the current (possibly empty)
run, `runRev` the class characters collected so far (reversed), and the
third argument the remaining input. -/
def findWordsAux : Option Char → Text → Text → List Text
  | beforeRun, runRev, [] =>
    if runRev ≠ [] ∧ okBefore beforeRun then [runRev.reverse] else []
  | beforeRun, runRev, c :: cs =>
    if isTokenChar c then
      findWordsAux beforeRun (c :: runRev) cs
    else
      (if runRev ≠ [] ∧ okBefore beforeRun ∧ ¬ isWordChar c then [runRev.reverse] else []) ++
        findWordsAux (some c) [] cs

/-- Source `SimpleVectorStore._tokenize`: lower-case, extract words, keep those of
length > 2. -/
def tokenize (text : Text) : List Text :=
  (findWordsAux none [] (text.map pyLower)).filter (fun w => decide (2 < w.length))

/-! ### Sentence splitting — `TextChunker._split_into_sentences` -/

/-- Python `\s` (ASCII range): space, tab, newline, carriage return,
vertical tab, form feed. -/
def pyIsSpace (c : Char) : Bool :=
  decide (c = ' ' ∨ c = '\t' ∨ c = '\n' ∨ c.toNat = 13 ∨ c.toNat = 11 ∨ c.toNat = 12)

/-- Sentence-terminal punctuation of the split pattern `(?<=[.!?])\s+`. -/
def isSentenceEnd (c : Char) : Bool :=
  decide (c = '.' ∨ c = '!' ∨ c = '?')

/-- Python `str.strip()`: drop whitespace from both ends. -/
def pyStrip (t : Text) : Text :=
  ((t.dropWhile pyIsSpace).reverse.dropWhile pyIsSpace).reverse

/-- Source `re.split(r'(?<=[.!?])\s+', _)`: a fragment boundary is a maximal
whitespace run immediately preceded by `.`, `!` or `?`; the whole run is
consumed. Arguments: `skipping` is true while inside a boundary run,
`prev` is the previous character (`none` at the start), `acc` the current
fragment reversed, and the last argument the remaining input. -/
def splitFragments : Bool → Option Char → Text → Text → List Text
  | _, _, acc, [] => [acc.reverse]
  | skipping, prev, acc, c :: cs =>
    if skipping && pyIsSpace c then
      splitFragments true (some c) acc cs
    else if !skipping && pyIsSpace c &&
        (match prev with | none => false | some p => isSentenceEnd p) then
      acc.reverse :: splitFragments true (some c) [] cs
    else
      splitFragments false (some c) (c :: acc) cs

/-- Source `TextChunker._split_into_sentences`: split, strip each fragment, drop
blanks. -/
def split_into_sentences (text : Text) : List Text :=
  ((splitFragments false none [] text).map pyStrip).filter (fun s => decide (s ≠ []))

/-! ### Chunking — `TextChunker` -/

/-- Constructor configuration of `TextChunker.__init__` (no validation is
performed by the source). -/
structure TextChunker where
  chunk_size : Int
  chunk_overlap : Int

/-- Total length of a list of sentences (characters only, no separators). -/
def sumLens (l : List Text) : Nat := (l.map List.length).sum

/-- The loop of `TextChunker._get_overlap_sentences`: walk backward through
`sentences` (passed reversed), accumulating whole sentences while the
accumulated character count stays within `chunk_overlap`; stop at the first
sentence that would overflow. `insert(0, _)` keeps original order. -/
def overlapLoop (co : Int) : List Text → Int → List Text → List Text
  | [], _, acc => acc
  | s :: rest, chars, acc =>
    if chars + (s.length : Int) ≤ co then
      overlapLoop co rest (chars + (s.length : Int)) (s :: acc)
    else acc

/-- Source `TextChunker._get_overlap_sentences`. -/
def get_overlap_sentences (tc : TextChunker) (sentences : List Text) : List Text :=
  if sentences = [] then []
  else overlapLoop tc.chunk_overlap sentences.reverse 0 []

/-- Source `' '.join(_)`. -/
def joinSpace : List Text → Text
  | [] => []
  | [s] => s
  | s :: rest => s ++ ' ' :: joinSpace rest

/-- The sentence-accumulation loop of `TextChunker.chunk_text`, recorded at
the level of each chunk's sentence list (the source joins each list with
single spaces when the chunk is closed). State: pending sentences, closed
chunks, current chunk, current running length. -/
def chunkLoop (tc : TextChunker) :
    List Text → List (List Text) → List Text → Nat → List (List Text)
  | [], chunks, current, _ =>
    if current = [] then chunks else chunks ++ [current]
  | s :: rest, chunks, current, curLen =>
    if (curLen : Int) + (s.length : Int) ≤ tc.chunk_size then
      chunkLoop tc rest chunks (current ++ [s]) (curLen + s.length + 1)
    else
      let chunks' := if current = [] then chunks else chunks ++ [current]
      let ov := get_overlap_sentences tc current
      let current' := ov ++ [s]
      chunkLoop tc rest chunks' current' (sumLens current' + current'.length)

/-- The sentence lists underlying the chunks of `TextChunker.chunk_text`. -/
def chunkSentenceLists (tc : TextChunker) (text : Text) : List (List Text) :=
  if pyStrip text = [] then []
  else chunkLoop tc (split_into_sentences (pyStrip text)) [] [] 0

/-- A chunk dictionary. `chunk_text` creates the first three fields;
`SimpleVectorStore.add_documents` attaches `document_id`, `tokens` and
`tf`, and `search` attaches `score` on returned copies. `none` in the
last four fields models the key being absent from the dict (for
`document_id`, a present key with value `None` is not distinguished from
an absent key; no claim depends on that distinction). -/
structure DocEntry where
  text : Text
  char_count : Nat
  chunk_id : Nat
  document_id : Option Text
  tokens : Option (List Text)
  tf : Option (List (Text × ℚ))
  score : Option ℝ

/-- Default entry used for (always in-bounds) list indexing. -/
def emptyEntry : DocEntry := ⟨[], 0, 0, none, none, none, none⟩

/-- Source `TextChunker.chunk_text`: empty or whitespace-only text yields no
chunks; otherwise each accumulated sentence list is joined with single
spaces and `chunk_id` is the sequential position. -/
def chunk_text (tc : TextChunker) (text : Text) : List DocEntry :=
  (chunkSentenceLists tc text).enum.map fun p =>
    ⟨joinSpace p.2, (joinSpace p.2).length, p.1, none, none, none, none⟩

/-! ### The TF-IDF store — `SimpleVectorStore` -/

/-- Source `SimpleVectorStore` state: `documents` in insertion order, the
`Counter` of document frequencies as a total function (`Counter` lookups
default to 0), and `total_docs`. -/
structure SimpleVectorStore where
  documents : List DocEntry
  doc_freqs : Text → Nat
  total_docs : Nat

/-- Source `SimpleVectorStore.__init__`. -/
def emptyStore : SimpleVectorStore := ⟨[], fun _ => 0, 0⟩

/-- First-occurrence deduplication, the key order of `Counter(tokens)`
(`seen` accumulates the keys already emitted). -/
def dedupFirstAux (seen : List Text) : List Text → List Text
  | [] => []
  | x :: xs =>
    if x ∈ seen then dedupFirstAux seen xs
    else x :: dedupFirstAux (seen ++ [x]) xs

/-- The distinct tokens of a list, in first-occurrence order. -/
def dedupFirst (l : List Text) : List Text := dedupFirstAux [] l

/-- Source `SimpleVectorStore._compute_tf`: `{term: count/total}` for each
distinct term; empty token list yields the empty mapping. The float
division of the source is idealised as exact rational division. -/
def compute_tf (tokens : List Text) : List (Text × ℚ) :=
  if tokens.length = 0 then []
  else (dedupFirst tokens).map fun t =>
    (t, (tokens.count t : ℚ) / (tokens.length : ℚ))

/-- Source `SimpleVectorStore._compute_idf`: 0 when the store is empty or the
term is unseen, else `ln(total_docs / df)` (float `math.log` idealised as
`Real.log`). -/
noncomputable def compute_idf (st : SimpleVectorStore) (term : Text) : ℝ :=
  if st.total_docs = 0 then 0
  else if st.doc_freqs term = 0 then 0
  else Real.log ((st.total_docs : ℝ) / (st.doc_freqs term : ℝ))

/-- The per-chunk body of the `for chunk in chunks` loop of
`SimpleVectorStore.add_documents`: attach `document_id`, `tokens`, `tf`;
bump `doc_freqs` once per distinct term of the chunk; append; bump
`total_docs`. -/
def addChunk (document_id : Option Text) (st : SimpleVectorStore) (chunk : DocEntry) :
    SimpleVectorStore :=
  let tokens := tokenize chunk.text
  let chunk' : DocEntry :=
    { chunk with document_id := document_id, tokens := some tokens,
                 tf := some (compute_tf tokens) }
  { documents := st.documents ++ [chunk'],
    doc_freqs := fun t => if t ∈ tokens then st.doc_freqs t + 1 else st.doc_freqs t,
    total_docs := st.total_docs + 1 }

/-- Source `SimpleVectorStore.add_documents`. -/
def add_documents (st : SimpleVectorStore) (chunks : List DocEntry)
    (document_id : Option Text) : SimpleVectorStore :=
  if chunks.isEmpty then st else chunks.foldl (addChunk document_id) st

/-- The inner scoring loop of `SimpleVectorStore.search`: one summand per
query token occurrence, skipping tokens absent from the chunk's `tf`
dict. -/
noncomputable def scoreOf (st : SimpleVectorStore) (query_tokens : List Text)
    (doc : DocEntry) : ℝ :=
  query_tokens.foldl
    (fun score term =>
      match (doc.tf.getD []).lookup term with
      | some tfv => score + (tfv : ℝ) * compute_idf st term
      | none => score)
    0

/-- The `scores` list of `SimpleVectorStore.search`: `(score, index)` per
stored chunk, in insertion order. -/
noncomputable def scoresList (st : SimpleVectorStore) (query_tokens : List Text) :
    List (ℝ × Nat) :=
  st.documents.enum.map fun p => (scoreOf st query_tokens p.2, p.1)

/-- Source `scores.sort(reverse=True, key=lambda x: x[0])`: a stable descending
sort on the first component, modelled by the stable `List.mergeSort`. -/
noncomputable def sortedScores (st : SimpleVectorStore) (query_tokens : List Text) :
    List (ℝ × Nat) :=
  (scoresList st query_tokens).mergeSort fun a b => decide (b.1 ≤ a.1)

/-- Python list slicing `l[:k]` for a possibly negative `k`. -/
def pyTake (k : Int) (l : List α) : List α :=
  if 0 ≤ k then l.take k.toNat else l.take ((l.length : Int) + k).toNat

/-- Source `SimpleVectorStore.search`. On an empty store: `[]`. On a query with
no tokens: the first `top_k` stored chunks, returned as stored. Otherwise
the top `top_k` of the stable descending sort, each a copy carrying
`score` with `tokens` and `tf` removed. -/
noncomputable def search (st : SimpleVectorStore) (query : Text) (top_k : Int) :
    List DocEntry :=
  if st.documents.isEmpty then []
  else
    let query_tokens := tokenize query
    if query_tokens.isEmpty then pyTake top_k st.documents
    else
      (pyTake top_k (sortedScores st query_tokens)).map fun si =>
        { st.documents.getD si.2 emptyEntry with
            score := some si.1, tokens := none, tf := none }

/-- Source `SimpleVectorStore.get_all_text`. -/
def get_all_text (st : SimpleVectorStore) : Text :=
  List.intercalate ("\n\n".toList) (st.documents.map (·.text))

/-- Source `SimpleVectorStore.clear`. -/
def clearStore (_ : SimpleVectorStore) : SimpleVectorStore := emptyStore

/-! ### The retrieval service — `RAGSystem` -/

/-- Source `RAGSystem` state. The hash set is a duplicate-free list (elements are
only added after a negative membership test). -/
structure RAGSystem where
  chunker : TextChunker
  vector_store : SimpleVectorStore
  document_hashes : List Text

/-- Source `RAGSystem.__init__` with the default configuration
`chunk_size=500, chunk_overlap=50`. -/
def initialRAG : RAGSystem := ⟨⟨500, 50⟩, emptyStore, []⟩

/-- Source `RAGSystem.add_document`, parameterised by the content hash function
(`hashlib.md5(...).hexdigest()` in the source — an external library,
abstracted as an arbitrary deterministic function). Returns the number of
chunks created and the new state. -/
def add_document (hashFn : Text → Text) (r : RAGSystem) (text : Text)
    (document_id : Option Text) : Nat × RAGSystem :=
  let text_hash := hashFn text
  if text_hash ∈ r.document_hashes then (0, r)
  else
    let chunks := chunk_text r.chunker text
    (chunks.length,
      { r with document_hashes := r.document_hashes ++ [text_hash],
               vector_store := add_documents r.vector_store chunks document_id })

/-- Source `RAGSystem.get_relevant_context`: search, fall back to the first 3000
characters of the concatenated corpus when no results come back, else join
the result texts with the visible separator. -/
noncomputable def get_relevant_context (r : RAGSystem) (query : Text) (top_k : Int) :
    Text :=
  let results := search r.vector_store query top_k
  if results.isEmpty then (get_all_text r.vector_store).take 3000
  else List.intercalate ("\n\n---\n\n".toList) (results.map (·.text))

/-- Source `RAGSystem.clear`. -/
def clearRAG (r : RAGSystem) : RAGSystem :=
  { r with vector_store := emptyStore, document_hashes := [] }

/-- Source `RAGSystem.get_stats`. -/
structure Stats where
  total_chunks : Nat
  unique_documents : Nat
deriving DecidableEq

/-- Source `RAGSystem.get_stats`: chunk count of the store and size of the hash
set. -/
def get_stats (r : RAGSystem) : Stats :=
  ⟨r.vector_store.documents.length, r.document_hashes.length⟩

/-! ### Fallible interface — error surface of the engine

The source performs no validation: `TextChunker.__init__` accepts any
configuration and `search` accepts any `top_k`. These wrappers expose the
(empty) Python exception surface as `Except`. -/

/-- Source `TextChunker.__init__` as a fallible constructor: the source stores
the two numbers without any check, so every call succeeds. -/
def chunkerInit (chunk_size chunk_overlap : Int) : Except String TextChunker :=
  .ok ⟨chunk_size, chunk_overlap⟩

/-- Source `SimpleVectorStore.search` as a fallible call: the source never
raises, for any `top_k`. -/
noncomputable def searchChecked (st : SimpleVectorStore) (query : Text) (top_k : Int) :
    Except String (List DocEntry) :=
  .ok (search st query top_k)

/-! ### Operation sequences over the service (for the state invariant) -/

/-- The mutating/observing operations a caller can issue. -/
inductive Op where
  | add (text : Text) (document_id : Option Text)
  | query (q : Text) (top_k : Int)
  | clear

/-- One caller operation. `search` never mutates the store, so a query
leaves the state unchanged. -/
def applyOp (hashFn : Text → Text) (r : RAGSystem) : Op → RAGSystem
  | .add t id => (add_document hashFn r t id).2
  | .query _ _ => r
  | .clear => clearRAG r

/-- Run a sequence of operations from the freshly constructed service. -/
def runOps (hashFn : Text → Text) (ops : List Op) : RAGSystem :=
  ops.foldl (applyOp hashFn) initialRAG

/-- The documented index invariant: every term's document frequency counts
the stored chunks whose token set contains it, and `total_docs` is the
number of stored chunks. -/
def StoreInvariant (st : SimpleVectorStore) : Prop :=
  (∀ t : Text, st.doc_freqs t = st.documents.countP fun d => decide (t ∈ d.tokens.getD [])) ∧
    st.total_docs = st.documents.length

/-! Scratch sanity checks (source behaviour on concrete inputs). -/

example : tokenize ("The cat sat".toList) =
    ["the".toList, "cat".toList, "sat".toList] := by decide

example : tokenize ("a".toList) = [] := by decide

example : split_into_sentences ("A b. C dd. End.".toList) =
    ["A b.".toList, "C dd.".toList, "End.".toList] := by decide

example : chunkSentenceLists ⟨11, 9⟩ ("A b. C dd. End.".toList) =
    [["A b.".toList, "C dd.".toList],
     ["A b.".toList, "C dd.".toList, "End.".toList]] := by decide

example : chunkSentenceLists ⟨500, 50⟩ ("   ".toList) = [] := by decide

/-! Concrete fixtures used by witnesses and counterexamples. -/

/-- A service that ingested the single document `"the cat sat"` (with the
identity as content hash). -/
def ragOne : RAGSystem :=
  (add_document id initialRAG ("the cat sat".toList) none).2

/-- A service that ingested `"the cat sat"` and then `"the dog ran"`. -/
def ragTwo : RAGSystem :=
  (add_document id ragOne ("the dog ran".toList) none).2

/-- The index holding the single chunk `"the cat sat"`. -/
def stOne : SimpleVectorStore := ragOne.vector_store

/-- The index holding the chunks `"the cat sat"` and `"the dog ran"`. -/
def stTwo : SimpleVectorStore := ragTwo.vector_store

example : stTwo.documents.length = 2 := by decide
example : stTwo.total_docs = 2 := by decide
example : stTwo.doc_freqs ("cat".toList) = 1 := by decide
example : stTwo.doc_freqs ("the".toList) = 2 := by decide
example : (stTwo.documents.getD 0 emptyEntry).tokens =
    some ["the".toList, "cat".toList, "sat".toList] := by decide
example : (stOne.documents.getD 0 emptyEntry).char_count = 11 := by decide
example : tokenize ("cat cat".toList) = ["cat".toList, "cat".toList] := by decide

/-- Check of a fallible call: did it return normally? -/
def errorFree : Except String α → Bool
  | .ok _ => true
  | .error _ => false

/-! ### Claim C9 — empty-index fallback -/

/-- C9: on an empty index, `search` returns the empty sequence for every
query and every `top_k`, and `get_relevant_context` returns the empty
string; both calls are total, so neither raises an error. -/
theorem C9_empty_index (r : RAGSystem) (q : Text) (k : Int)
    (h : r.vector_store.documents = []) :
    search r.vector_store q k = [] ∧ get_relevant_context r q k = [] := by
  have hs : search r.vector_store q k = [] := by
    simp [search, h]
  refine ⟨hs, ?_⟩
  simp [get_relevant_context, hs, get_all_text, h, List.intercalate]

/-- C9 witness: the freshly constructed service has an empty index, and
both calls return empty on it. -/
theorem C9_empty_index_witness :
    search initialRAG.vector_store ("anything".toList) 5 = [] ∧
      get_relevant_context initialRAG ("anything".toList) 5 = [] :=
  C9_empty_index initialRAG ("anything".toList) 5 rfl

/-! ### Claim C6 — idempotent deduplication -/

/-- C6: submitting the same text twice changes the service only on the
first call: the second call returns 0 chunks and leaves the whole state —
index contents, document frequencies and hash set — unchanged, so the
statistics do not increase either. -/
theorem C6_idempotent_dedup (hashFn : Text → Text) (r : RAGSystem) (T : Text)
    (id1 id2 : Option Text) :
    add_document hashFn (add_document hashFn r T id1).2 T id2
        = (0, (add_document hashFn r T id1).2) ∧
      get_stats (add_document hashFn (add_document hashFn r T id1).2 T id2).2
        = get_stats (add_document hashFn r T id1).2 := by
  have hmem : hashFn T ∈ (add_document hashFn r T id1).2.document_hashes := by
    by_cases h : hashFn T ∈ r.document_hashes
    · simp [add_document, h]
    · simp [add_document, h]
  have h2 : add_document hashFn (add_document hashFn r T id1).2 T id2
      = (0, (add_document hashFn r T id1).2) := by
    generalize (add_document hashFn r T id1).2 = r1 at hmem ⊢
    simp [add_document, hmem]
  exact ⟨h2, by rw [h2]⟩

/-! ### Claim C10 — unseen empty text is hashed but yields no chunks -/

/-- C10: for a previously unseen text whose chunking yields no chunks,
`add_document` returns 0 yet records the content hash: the store is
untouched, `unique_documents` grows by one, `total_chunks` is unchanged,
and a repeated submission of the same text is treated as a duplicate. -/
theorem C10_empty_doc_recorded (hashFn : Text → Text) (r : RAGSystem) (T : Text)
    (id1 id2 : Option Text)
    (hnew : hashFn T ∉ r.document_hashes)
    (hchunks : chunk_text r.chunker T = []) :
    add_document hashFn r T id1
        = (0, { r with document_hashes := r.document_hashes ++ [hashFn T] }) ∧
      (add_document hashFn r T id1).2.vector_store = r.vector_store ∧
      (get_stats (add_document hashFn r T id1).2).unique_documents
        = (get_stats r).unique_documents + 1 ∧
      (get_stats (add_document hashFn r T id1).2).total_chunks
        = (get_stats r).total_chunks ∧
      add_document hashFn (add_document hashFn r T id1).2 T id2
        = (0, (add_document hashFn r T id1).2) := by
  have h1 : add_document hashFn r T id1
      = (0, { r with document_hashes := r.document_hashes ++ [hashFn T] }) := by
    simp [add_document, hnew, hchunks, add_documents]
  refine ⟨h1, by rw [h1], by rw [h1]; simp [get_stats], by rw [h1]; simp [get_stats], ?_⟩
  rw [h1]
  simp [add_document]

/-- C10 witness: ingesting the whitespace-only text `" "` into the fresh
service (content hash: the identity function). -/
theorem C10_empty_doc_recorded_witness :
    add_document id initialRAG (" ".toList) none
        = (0, { initialRAG with
                  document_hashes := initialRAG.document_hashes ++ [id (" ".toList)] }) ∧
      (add_document id initialRAG (" ".toList) none).2.vector_store
        = initialRAG.vector_store ∧
      (get_stats (add_document id initialRAG (" ".toList) none).2).unique_documents
        = (get_stats initialRAG).unique_documents + 1 ∧
      (get_stats (add_document id initialRAG (" ".toList) none).2).total_chunks
        = (get_stats initialRAG).total_chunks ∧
      add_document id (add_document id initialRAG (" ".toList) none).2 (" ".toList) none
        = (0, (add_document id initialRAG (" ".toList) none).2) :=
  C10_empty_doc_recorded id initialRAG (" ".toList) none none (by decide) rfl

/-! ### Claim C3 — error surface -/

/-- C3 counterexample: the source performs no validation, so constructing
the chunker with `chunk_size = 0` (non-positive) or with
`chunk_overlap = chunk_size = 10` succeeds, and `search` with
`top_k = 0 < 1` returns normally — contradicting the claim that these
conditions raise errors. -/
theorem C3_counterexample :
    errorFree (chunkerInit 0 10) = true ∧
      errorFree (chunkerInit 10 10) = true ∧
      errorFree (searchChecked stOne ("cat".toList) 0) = true :=
  ⟨rfl, rfl, rfl⟩

/-- C3 amended: no condition surfaces as an error to a caller — the
constructor accepts every configuration and `search` accepts every
`top_k`; both are total. -/
theorem C3_amended :
    (∀ cs co : Int, errorFree (chunkerInit cs co) = true) ∧
      ∀ (st : SimpleVectorStore) (q : Text) (k : Int),
        errorFree (searchChecked st q k) = true :=
  ⟨fun _ _ => rfl, fun _ _ _ => rfl⟩

/-! ### Claim C8 — document-frequency invariant -/

theorem storeInvariant_addChunk (id : Option Text) (st : SimpleVectorStore)
    (c : DocEntry) (h : StoreInvariant st) : StoreInvariant (addChunk id st c) := by
  obtain ⟨hdf, htot⟩ := h
  constructor
  · intro t
    by_cases hc : t ∈ tokenize c.text
    · simp [addChunk, List.countP_append, hdf t, hc]
    · simp [addChunk, List.countP_append, hdf t, hc]
  · simp [addChunk, htot]

theorem storeInvariant_add_documents (st : SimpleVectorStore) (chunks : List DocEntry)
    (id : Option Text) (h : StoreInvariant st) :
    StoreInvariant (add_documents st chunks id) := by
  rw [add_documents]
  split
  · exact h
  · clear * - h
    induction chunks generalizing st with
    | nil => exact h
    | cons c rest ih => exact ih _ (storeInvariant_addChunk id st c h)

theorem storeInvariant_applyOp (hashFn : Text → Text) (r : RAGSystem) (op : Op)
    (h : StoreInvariant r.vector_store) :
    StoreInvariant (applyOp hashFn r op).vector_store := by
  cases op with
  | add t id =>
    rw [applyOp, add_document]
    split
    · exact h
    · exact storeInvariant_add_documents _ _ _ h
  | query q k => exact h
  | clear => exact ⟨fun t => rfl, rfl⟩

/-- C8: after every sequence of `add_document`, `search` and `clear`
operations, every term's document frequency equals the number of stored
chunks whose token set contains it (counted once per chunk), and
`total_docs` equals the number of stored chunks. -/
theorem C8_df_invariant (hashFn : Text → Text) (ops : List Op) :
    StoreInvariant (runOps hashFn ops).vector_store := by
  rw [runOps]
  have base : StoreInvariant initialRAG.vector_store := ⟨fun t => rfl, rfl⟩
  generalize initialRAG = r at base ⊢
  induction ops generalizing r with
  | nil => exact base
  | cons op rest ih => exact ih _ (storeInvariant_applyOp hashFn r op base)

/-! ### Claim C4 — overlap bound -/

theorem overlapLoop_sum (co : Int) (rs : List Text) :
    ∀ (chars : Int) (acc : List Text),
      chars = (sumLens acc : Int) → chars ≤ co →
      (sumLens (overlapLoop co rs chars acc) : Int) ≤ co := by
  induction rs with
  | nil =>
    intro chars acc h hle
    rw [overlapLoop]
    omega
  | cons s rest ih =>
    intro chars acc h hle
    rw [overlapLoop]
    split
    · next hcond =>
      refine ih _ _ ?_ hcond
      simp only [sumLens, List.map_cons, List.sum_cons] at h ⊢
      omega
    · omega

theorem sumLens_overlap (tc : TextChunker) (ss : List Text)
    (hco : 0 ≤ tc.chunk_overlap) :
    (sumLens (get_overlap_sentences tc ss) : Int) ≤ tc.chunk_overlap := by
  rw [get_overlap_sentences]
  split
  · simpa [sumLens] using hco
  · exact overlapLoop_sum _ _ 0 [] (by simp [sumLens]) hco

theorem joinSpace_length :
    ∀ (l : List Text), l ≠ [] → (joinSpace l).length = sumLens l + l.length - 1
  | [s], _ => by simp [joinSpace, sumLens]
  | s :: t :: rest, _ => by
    have ih := joinSpace_length (t :: rest) (by simp)
    have : joinSpace (s :: t :: rest) = s ++ ' ' :: joinSpace (t :: rest) := rfl
    rw [this]
    simp only [List.length_append, List.length_cons, sumLens, List.map_cons,
      List.sum_cons] at ih ⊢
    omega

/-- C4 amended: the overlap window never holds more than `chunk_overlap`
characters of sentence text; the prefix as it appears joined in the next
chunk adds one separator space per gap, so its length is bounded by
`chunk_overlap + (k - 1)` for `k` overlap sentences — but not by
`chunk_overlap` itself. -/
theorem C4_amended (tc : TextChunker) (ss : List Text)
    (hco : 0 ≤ tc.chunk_overlap) :
    (sumLens (get_overlap_sentences tc ss) : Int) ≤ tc.chunk_overlap ∧
      (get_overlap_sentences tc ss ≠ [] →
        ((joinSpace (get_overlap_sentences tc ss)).length : Int)
          ≤ tc.chunk_overlap + ((get_overlap_sentences tc ss).length : Int) - 1) := by
  refine ⟨sumLens_overlap tc ss hco, fun hne => ?_⟩
  have hs := sumLens_overlap tc ss hco
  have hl := joinSpace_length _ hne
  have hlen : 1 ≤ (get_overlap_sentences tc ss).length :=
    List.length_pos.mpr hne
  omega

/-- C4 witness: a run of the amended bound on the counterexample
configuration (`chunk_overlap = 9`) and the closed chunk
`["A b.", "C dd."]`. -/
theorem C4_amended_witness :
    (0 : Int) ≤ (⟨11, 9⟩ : TextChunker).chunk_overlap ∧
      ((sumLens (get_overlap_sentences ⟨11, 9⟩ ["A b.".toList, "C dd.".toList]) : Int)
          ≤ (⟨11, 9⟩ : TextChunker).chunk_overlap ∧
        (get_overlap_sentences ⟨11, 9⟩ ["A b.".toList, "C dd.".toList] ≠ [] →
          ((joinSpace (get_overlap_sentences ⟨11, 9⟩
              ["A b.".toList, "C dd.".toList])).length : Int)
            ≤ (⟨11, 9⟩ : TextChunker).chunk_overlap +
                ((get_overlap_sentences ⟨11, 9⟩
                  ["A b.".toList, "C dd.".toList]).length : Int) - 1)) :=
  ⟨by decide, C4_amended ⟨11, 9⟩ ["A b.".toList, "C dd.".toList] (by decide)⟩

/-- C4 counterexample: with `chunk_size = 11, chunk_overlap = 9` on
`"A b. C dd. End."`, every sentence has length at most 9 (= the overlap
bound), yet the overlap carried from chunk 0 into chunk 1 is
`["A b.", "C dd."]`, which appears joined in chunk 1's text as the
10-character prefix `"A b. C dd."` — exceeding `chunk_overlap = 9`. -/
theorem C4_counterexample :
    (∀ s ∈ split_into_sentences (pyStrip ("A b. C dd. End.".toList)),
        (s.length : Int) ≤ (⟨11, 9⟩ : TextChunker).chunk_overlap) ∧
      chunkSentenceLists ⟨11, 9⟩ ("A b. C dd. End.".toList)
        = [["A b.".toList, "C dd.".toList],
           ["A b.".toList, "C dd.".toList, "End.".toList]] ∧
      get_overlap_sentences ⟨11, 9⟩ ["A b.".toList, "C dd.".toList]
        = ["A b.".toList, "C dd.".toList] ∧
      (joinSpace ["A b.".toList, "C dd.".toList] ++ [' ']).isPrefixOf
          ((chunk_text ⟨11, 9⟩ ("A b. C dd. End.".toList)).getD 1 emptyEntry).text
        = true ∧
      ¬ (((joinSpace ["A b.".toList, "C dd.".toList]).length : Int)
          ≤ (⟨11, 9⟩ : TextChunker).chunk_overlap) :=
  ⟨by decide, by decide, by decide, by decide, by decide⟩

/-! ### Claim C2 — shape of search results -/

theorem mem_pyTake {α : Type _} {x : α} {k : Int} {l : List α}
    (h : x ∈ pyTake k l) : x ∈ l := by
  rw [pyTake] at h
  split at h
  · exact List.take_subset _ _ h
  · exact List.take_subset _ _ h

theorem snd_lt_of_mem_scoresList {st : SimpleVectorStore} {qts : List Text}
    {si : ℝ × Nat} (h : si ∈ scoresList st qts) : si.2 < st.documents.length := by
  rw [scoresList] at h
  obtain ⟨p, hp, hpe⟩ := List.mem_map.mp h
  have := List.mem_enumFrom hp
  simp only [Nat.zero_add, Nat.zero_le, true_and] at this
  subst hpe
  exact this.1

/-- C2 amended: when the query tokenises to at least one term, every
returned element is a copy of a stored chunk carrying a numeric `score`
with the internal `tokens` and `tf` fields stripped; when the query
tokenises to no terms, the first `top_k` stored chunks are returned
exactly as stored — internal fields present, no score attached. -/
theorem C2_amended (st : SimpleVectorStore) (q : Text) (k : Int)
    (hne : st.documents ≠ []) :
    (tokenize q ≠ [] →
      ∀ r ∈ search st q k, ∃ (i : Nat) (s : ℝ),
        i < st.documents.length ∧
        r = { st.documents.getD i emptyEntry with
                score := some s, tokens := none, tf := none }) ∧
      (tokenize q = [] → search st q k = pyTake k st.documents) := by
  constructor
  · intro hq r hr
    rw [search, if_neg (by simpa [List.isEmpty_iff] using hne),
      if_neg (by simpa [List.isEmpty_iff] using hq)] at hr
    obtain ⟨si, hsi, hre⟩ := List.mem_map.mp hr
    refine ⟨si.2, si.1, ?_, hre.symm⟩
    have hmem := mem_pyTake hsi
    rw [sortedScores] at hmem
    exact snd_lt_of_mem_scoresList (List.mem_mergeSort.mp hmem)
  · intro hq
    rw [search, if_neg (by simpa [List.isEmpty_iff] using hne),
      if_pos (by simpa [List.isEmpty_iff] using hq)]

/-- C2 witness: the amended statement instantiated on the one-chunk index
with the query `"cat"` (one term) and `top_k = 1`. -/
theorem C2_amended_witness :
    (tokenize ("cat".toList) ≠ [] →
      ∀ r ∈ search stOne ("cat".toList) 1, ∃ (i : Nat) (s : ℝ),
        i < stOne.documents.length ∧
        r = { stOne.documents.getD i emptyEntry with
                score := some s, tokens := none, tf := none }) ∧
      (tokenize ("cat".toList) = [] →
        search stOne ("cat".toList) 1 = pyTake 1 stOne.documents) :=
  C2_amended stOne ("cat".toList) 1
    (List.ne_nil_of_length_pos (by decide))

/-- C2 counterexample: on the non-empty one-chunk index with `top_k = 1`,
the query `"a"` tokenises to no terms, and the element returned by
`search` is the stored chunk itself: its internal `tokens` and `tf` keys
are still present and no `score` key was attached — contradicting the
claim that the stripped, score-annotated shape holds in this case too. -/
theorem C2_counterexample :
    stOne.documents ≠ [] ∧
      tokenize ("a".toList) = [] ∧
      ((search stOne ("a".toList) 1).getD 0 emptyEntry).tokens ≠ none ∧
      ((search stOne ("a".toList) 1).getD 0 emptyEntry).tf ≠ none ∧
      ((search stOne ("a".toList) 1).getD 0 emptyEntry).score = none := by
  have hsearch : search stOne ("a".toList) 1 = stOne.documents := rfl
  refine ⟨List.ne_nil_of_length_pos (by decide), by decide, ?_, ?_, ?_⟩
  · rw [hsearch]
    decide
  · rw [hsearch]
    decide
  · rw [hsearch]
    rfl

/-! ### Claim C1 — the scoring formula -/

theorem mem_dedupFirstAux (l : List Text) :
    ∀ (seen : List Text) (t : Text),
      t ∈ dedupFirstAux seen l ↔ t ∈ l ∧ t ∉ seen := by
  induction l with
  | nil => intro seen t; simp [dedupFirstAux]
  | cons x xs ih =>
    intro seen t
    rw [dedupFirstAux]
    split
    · next hx =>
      rw [ih]
      by_cases ht : t = x
      · subst ht
        simp [hx]
      · simp [ht]
    · next hx =>
      by_cases ht : t = x
      · subst ht
        simp [hx]
      · simp [ht, ih]

theorem mem_dedupFirst (l : List Text) (t : Text) :
    t ∈ dedupFirst l ↔ t ∈ l := by
  simp [dedupFirst, mem_dedupFirstAux]

theorem lookup_map_mk (f : Text → ℚ) (keys : List Text) (t : Text) :
    (keys.map fun x => (x, f x)).lookup t
      = if t ∈ keys then some (f t) else none := by
  induction keys with
  | nil => simp [List.lookup]
  | cons x xs ih =>
    by_cases h : t = x
    · subst h
      simp [List.lookup]
    · simp [List.lookup, show (t == x) = false from by simp [h], ih, h]

theorem lookup_compute_tf (toks : List Text) (t : Text) :
    (compute_tf toks).lookup t
      = if t ∈ toks then some ((toks.count t : ℚ) / (toks.length : ℚ)) else none := by
  rw [compute_tf]
  split
  · next hlen =>
    rw [List.length_eq_zero] at hlen
    subst hlen
    simp [List.lookup]
  · rw [lookup_map_mk]
    simp only [mem_dedupFirst]

theorem scoreOf_foldl (st : SimpleVectorStore) (d : DocEntry) (qts : List Text) :
    ∀ (init : ℝ),
      qts.foldl
          (fun score term =>
            match (d.tf.getD []).lookup term with
            | some tfv => score + (tfv : ℝ) * compute_idf st term
            | none => score)
          init
        = init + (qts.map fun t =>
            match (d.tf.getD []).lookup t with
            | some tfv => (tfv : ℝ) * compute_idf st t
            | none => 0).sum := by
  induction qts with
  | nil => intro init; simp
  | cons t ts ih =>
    intro init
    rw [List.foldl_cons, List.map_cons, List.sum_cons, ih]
    cases h : (d.tf.getD []).lookup t with
    | none => simp [h]
    | some v =>
      simp only [h]
      ring

/-- C1 amended: for every store and every stored chunk whose `tf` mapping
was computed from a token list `toks`, the score `search` computes is the
sum **over query token occurrences** (one summand per occurrence, not one
per distinct term) of `TF(chunk, t) × IDF(t)` with
`TF(chunk, t) = count(t, toks)/|toks|`; a term absent from the corpus has
`IDF = 0` and so contributes 0, and `IDF(t) = ln(total/df(t))` whenever
`df(t) > 0` on a non-empty store. -/
theorem C1_amended (st : SimpleVectorStore) (q : Text) (hq : tokenize q ≠ [])
    (d : DocEntry) (toks : List Text) (htf : d.tf = some (compute_tf toks)) :
    scoreOf st (tokenize q) d
        = ((tokenize q).map fun t =>
            ((toks.count t : ℝ) / (toks.length : ℝ)) * compute_idf st t).sum ∧
      (∀ t : Text, st.doc_freqs t = 0 → compute_idf st t = 0) ∧
      (∀ t : Text, 0 < st.doc_freqs t → 0 < st.total_docs →
        compute_idf st t = Real.log ((st.total_docs : ℝ) / (st.doc_freqs t : ℝ))) := by
  refine ⟨?_, ?_, ?_⟩
  · rw [scoreOf, scoreOf_foldl, zero_add]
    congr 1
    apply List.map_congr_left
    intro t _
    rw [htf, Option.getD_some, lookup_compute_tf]
    by_cases h : t ∈ toks
    · rw [if_pos h]
      push_cast
      ring
    · rw [if_neg h]
      have : toks.count t = 0 := List.count_eq_zero.mpr h
      rw [this]
      simp
  · intro t h
    simp [compute_idf, h]
  · intro t h1 h2
    simp [compute_idf, h1.ne', h2.ne']

/-- C1 witness: the amended formula evaluated on the two-chunk index, the
first stored chunk, and the query `"cat cat"`. -/
theorem C1_amended_witness :
    (scoreOf stTwo (tokenize ("cat cat".toList)) (stTwo.documents.getD 0 emptyEntry)
        = ((tokenize ("cat cat".toList)).map fun t =>
            (((tokenize ("the cat sat".toList)).count t : ℝ) /
                ((tokenize ("the cat sat".toList)).length : ℝ)) *
              compute_idf stTwo t).sum ∧
      (∀ t : Text, stTwo.doc_freqs t = 0 → compute_idf stTwo t = 0) ∧
      (∀ t : Text, 0 < stTwo.doc_freqs t → 0 < stTwo.total_docs →
        compute_idf stTwo t
          = Real.log ((stTwo.total_docs : ℝ) / (stTwo.doc_freqs t : ℝ)))) :=
  C1_amended stTwo ("cat cat".toList) (by decide)
    (stTwo.documents.getD 0 emptyEntry) (tokenize ("the cat sat".toList)) rfl

/-- Modelled from the spec's words: `score(chunk, query) = Σ over query
terms t [ TF(chunk, t) × IDF(t) ]` with `t` ranging over the (distinct)
terms of the query and `TF(chunk, t) = count/total` over the chunk's token
list. Used only to compare the spec's formula with the source's loop. -/
noncomputable def specScoreDistinct (st : SimpleVectorStore) (query : Text)
    (chunkTokens : List Text) : ℝ :=
  ((tokenize query).dedup.map fun t =>
    ((chunkTokens.count t : ℝ) / (chunkTokens.length : ℝ)) * compute_idf st t).sum

/-- C1 counterexample: on the two-chunk index, the query `"cat cat"`
tokenises to two occurrences of the term `"cat"`; the source's loop adds
`TF × IDF` once per occurrence, giving `2/3·ln 2` on the first chunk,
whereas the spec's sum over (distinct) query terms gives `1/3·ln 2`. -/
theorem C1_counterexample :
    tokenize ("cat cat".toList) ≠ [] ∧
      scoreOf stTwo (tokenize ("cat cat".toList)) (stTwo.documents.getD 0 emptyEntry)
        ≠ specScoreDistinct stTwo ("cat cat".toList)
            (tokenize ("the cat sat".toList)) := by
  have hdf1 : stTwo.doc_freqs ("cat".toList) = 1 := by decide
  have htd : stTwo.total_docs = 2 := by decide
  have hidf : compute_idf stTwo ("cat".toList) = Real.log 2 := by
    rw [compute_idf, if_neg (by decide), if_neg (by decide), hdf1, htd]
    norm_num
  have htf : (stTwo.documents.getD 0 emptyEntry).tf
      = some (compute_tf (tokenize ("the cat sat".toList))) := rfl
  have hcount : (tokenize ("the cat sat".toList)).count ("cat".toList) = 1 := by decide
  have hlen3 : (tokenize ("the cat sat".toList)).length = 3 := by decide
  have hlookup : (compute_tf (tokenize ("the cat sat".toList))).lookup ("cat".toList)
      = some ((1 : ℚ) / 3) := by
    rw [lookup_compute_tf, if_pos (by decide), hcount, hlen3]
    norm_num
  have hL : scoreOf stTwo (tokenize ("cat cat".toList))
      (stTwo.documents.getD 0 emptyEntry) = (2 / 3 : ℝ) * Real.log 2 := by
    rw [show tokenize ("cat cat".toList) = ["cat".toList, "cat".toList] from by decide,
      scoreOf, scoreOf_foldl, htf, Option.getD_some]
    simp only [List.map_cons, List.map_nil, List.sum_cons, List.sum_nil, hlookup]
    rw [hidf]
    push_cast
    ring
  have hR : specScoreDistinct stTwo ("cat cat".toList)
      (tokenize ("the cat sat".toList)) = (1 / 3 : ℝ) * Real.log 2 := by
    rw [specScoreDistinct,
      show (tokenize ("cat cat".toList)).dedup = ["cat".toList] from by decide]
    simp only [List.map_cons, List.map_nil, List.sum_cons, List.sum_nil]
    rw [hcount, hlen3, hidf]
    norm_num
  refine ⟨by decide, ?_⟩
  rw [hL, hR]
  have hlog : (0 : ℝ) < Real.log 2 := Real.log_pos (by norm_num)
  intro heq
  nlinarith

/-! ### Claim C7 — IDF value and monotonicity -/

/-- C7: for a term with document frequency `k > 0` out of `n ≥ k` total
chunks, the computed IDF is `ln(n/k)`; ingesting one more chunk containing
the term never increases the IDF (strictly decreasing it when `k < n`),
and a term present in every chunk has IDF 0. -/
theorem C7_idf_monotone (st : SimpleVectorStore) (t : Text) (k n : Nat)
    (hdf : st.doc_freqs t = k) (htot : st.total_docs = n)
    (hk : 0 < k) (hkn : k ≤ n) :
    compute_idf st t = Real.log ((n : ℝ) / (k : ℝ)) ∧
      (∀ (c : DocEntry) (id : Option Text), t ∈ tokenize c.text →
        compute_idf (add_documents st [c] id) t ≤ compute_idf st t ∧
          (k < n → compute_idf (add_documents st [c] id) t < compute_idf st t)) ∧
      (k = n → compute_idf st t = 0) := by
  have hn : 0 < n := lt_of_lt_of_le hk hkn
  have h1 : compute_idf st t = Real.log ((n : ℝ) / (k : ℝ)) := by
    rw [compute_idf, hdf, htot, if_neg hn.ne', if_neg hk.ne']
  refine ⟨h1, ?_, ?_⟩
  · intro c id htok
    have hst : add_documents st [c] id = addChunk id st c := by
      rw [add_documents]
      simp
    have h2 : compute_idf (add_documents st [c] id) t
        = Real.log (((n : ℝ) + 1) / ((k : ℝ) + 1)) := by
      rw [hst, compute_idf]
      simp only [addChunk, htok, if_pos, hdf, htot]
      rw [if_neg (Nat.succ_ne_zero n), if_neg (Nat.succ_ne_zero k)]
      push_cast
      ring_nf
    have hkpos : (0 : ℝ) < (k : ℝ) := by exact_mod_cast hk
    have hnpos : (0 : ℝ) < (n : ℝ) := by exact_mod_cast hn
    have hknR : (k : ℝ) ≤ (n : ℝ) := by exact_mod_cast hkn
    constructor
    · rw [h1, h2]
      apply Real.log_le_log (by positivity)
      rw [div_le_div_iff (by positivity) hkpos]
      nlinarith
    · intro hlt
      have hltR : (k : ℝ) < (n : ℝ) := by exact_mod_cast hlt
      rw [h1, h2]
      apply Real.log_lt_log (by positivity)
      rw [div_lt_div_iff (by positivity) hkpos]
      nlinarith
  · intro hkeq
    subst hkeq
    rw [h1, div_self (by exact_mod_cast hk.ne'), Real.log_one]

/-- C7 witness: the term `"cat"` occurs in 1 of the 2 chunks of the
two-chunk index. -/
theorem C7_idf_monotone_witness :
    compute_idf stTwo ("cat".toList) = Real.log (((2 : Nat) : ℝ) / ((1 : Nat) : ℝ)) ∧
      (∀ (c : DocEntry) (id : Option Text), ("cat".toList) ∈ tokenize c.text →
        compute_idf (add_documents stTwo [c] id) ("cat".toList)
            ≤ compute_idf stTwo ("cat".toList) ∧
          (1 < 2 → compute_idf (add_documents stTwo [c] id) ("cat".toList)
            < compute_idf stTwo ("cat".toList))) ∧
      (1 = 2 → compute_idf stTwo ("cat".toList) = 0) :=
  C7_idf_monotone stTwo ("cat".toList) 1 2 (by decide) (by decide)
    (by decide) (by decide)

/-! ### Claim C5 — ranking order and stability -/

/-- The ranking order of the claim on `(score, insertion index)` pairs:
strictly higher score first, ties in ascending insertion position. -/
def rankedBefore (a b : ℝ × Nat) : Prop :=
  b.1 < a.1 ∨ (a.1 = b.1 ∧ a.2 < b.2)

theorem pair_sublist_of_pairwise {α : Type _} {R : α → α → Prop}
    (hasym : ∀ x y, R x y → R y x → False) :
    ∀ (l : List α), l.Pairwise R → ∀ (a b : α), a ∈ l → b ∈ l → R a b →
      [a, b] <+ l
  | [] => by
    intro _ a b ha
    cases ha
  | x :: xs => by
    intro hl a b ha hb hab
    rw [List.pairwise_cons] at hl
    rcases List.mem_cons.mp ha with rfl | ha'
    · rcases List.mem_cons.mp hb with rfl | hb'
      · exact absurd hab fun h => hasym _ _ h h
      · exact (List.singleton_sublist.mpr hb').cons₂ _
    · rcases List.mem_cons.mp hb with rfl | hb'
      · exact absurd hab fun h => hasym _ _ h (hl.1 a ha')
      · exact (pair_sublist_of_pairwise hasym xs hl.2 a b ha' hb' hab).cons _

theorem eq_of_pair_sublist_nodup {α : Type _} :
    ∀ {l : List α}, l.Nodup → ∀ {a b : α}, [a, b] <+ l → [b, a] <+ l → a = b := by
  intro l
  induction l with
  | nil =>
    intro _ a b h
    exact absurd h (by simp)
  | cons x xs ih =>
    intro hnd a b h1 h2
    rw [List.nodup_cons] at hnd
    cases h1 with
    | cons _ h1' =>
      cases h2 with
      | cons _ h2' => exact ih hnd.2 h1' h2'
      | cons₂ _ h2' => exact absurd (h1'.subset (by simp)) hnd.1
    | cons₂ _ h1' =>
      cases h2 with
      | cons _ h2' => exact absurd (h2'.subset (by simp)) hnd.1
      | cons₂ _ h2' => rfl

theorem pairwise_rankedBefore_mergeSort (l : List (ℝ × Nat))
    (hl : l.Pairwise fun a b => a.2 < b.2) :
    (l.mergeSort fun a b => decide (b.1 ≤ a.1)).Pairwise rankedBefore := by
  have trans : ∀ (a b c : ℝ × Nat),
      (fun a b : ℝ × Nat => decide (b.1 ≤ a.1)) a b →
      (fun a b : ℝ × Nat => decide (b.1 ≤ a.1)) b c →
      (fun a b : ℝ × Nat => decide (b.1 ≤ a.1)) a c := by
    intro a b c h1 h2
    simp only [decide_eq_true_eq] at h1 h2 ⊢
    exact le_trans h2 h1
  have total : ∀ (a b : ℝ × Nat),
      ((fun a b : ℝ × Nat => decide (b.1 ≤ a.1)) a b ||
        (fun a b : ℝ × Nat => decide (b.1 ≤ a.1)) b a) = true := by
    intro a b
    rcases le_total a.1 b.1 with h | h <;> simp [h]
  have hsorted := List.sorted_mergeSort trans total l
  have hperm := List.mergeSort_perm l fun a b : ℝ × Nat => decide (b.1 ≤ a.1)
  have hsnd : (l.map Prod.snd).Pairwise (· < ·) := hl.map Prod.snd fun a b h => h
  have hndsnd : (l.map Prod.snd).Nodup := hsnd.imp ne_of_lt
  have hndo : ((l.mergeSort fun a b : ℝ × Nat => decide (b.1 ≤ a.1)).map
      Prod.snd).Nodup := ((hperm.map Prod.snd).nodup_iff).mpr hndsnd
  rw [List.pairwise_iff_forall_sublist]
  intro a b hsub
  have hle : decide (b.1 ≤ a.1) = true :=
    List.pairwise_iff_forall_sublist.mp hsorted hsub
  rw [decide_eq_true_eq] at hle
  rcases hle.lt_or_eq with hlt | heq
  · exact Or.inl hlt
  · right
    refine ⟨heq.symm, ?_⟩
    have hsubsnd : [a.2, b.2] <+
        (l.mergeSort fun a b : ℝ × Nat => decide (b.1 ≤ a.1)).map Prod.snd := by
      simpa using hsub.map Prod.snd
    have hne : a.2 ≠ b.2 :=
      List.pairwise_iff_forall_sublist.mp hndo hsubsnd
    rcases Nat.lt_or_ge a.2 b.2 with h | h
    · exact h
    · exfalso
      have hba : b.2 < a.2 := lt_of_le_of_ne h hne.symm
      have hma : a ∈ l := hperm.subset (hsub.subset (by simp))
      have hmb : b ∈ l := hperm.subset (hsub.subset (by simp))
      have hsubl : [b, a] <+ l :=
        pair_sublist_of_pairwise (fun x y hxy hyx => Nat.lt_asymm hxy hyx)
          l hl b a hmb hma hba
      have hpair : (fun a b : ℝ × Nat => decide (b.1 ≤ a.1)) b a = true := by
        rw [decide_eq_true_eq]
        exact heq.ge
      have hsubo := List.pair_sublist_mergeSort trans total hpair hsubl
      have hsubo2 : [b.2, a.2] <+
          (l.mergeSort fun a b : ℝ × Nat => decide (b.1 ≤ a.1)).map Prod.snd := by
        simpa using hsubo.map Prod.snd
      exact hne (eq_of_pair_sublist_nodup hndo hsubsnd hsubo2)

theorem sortedScores_pairwise (st : SimpleVectorStore) (qts : List Text) :
    (sortedScores st qts).Pairwise rankedBefore := by
  rw [sortedScores]
  apply pairwise_rankedBefore_mergeSort
  rw [scoresList]
  have henum : (st.documents.enum).Pairwise fun a b => a.1 < b.1 := by
    rw [List.pairwise_iff_getElem]
    intro i j hi hj hij
    simp only [List.getElem_enum]
    simpa using hij
  exact henum.map _ fun a b h => h

/-- C5: when the query tokenises to at least one term, the ranked
`(score, insertion index)` sequence that `search` returns its prefix of is
sorted by descending score with ties in ascending insertion order, and on
a non-empty index the returned chunks are exactly the image of its first
`top_k` entries (each stored chunk annotated with its score). -/
theorem C5_ranking_stable (st : SimpleVectorStore) (q : Text) (k : Int)
    (hq : tokenize q ≠ []) :
    (pyTake k (sortedScores st (tokenize q))).Pairwise rankedBefore ∧
      (st.documents ≠ [] →
        search st q k = (pyTake k (sortedScores st (tokenize q))).map fun si =>
          { st.documents.getD si.2 emptyEntry with
              score := some si.1, tokens := none, tf := none }) := by
  constructor
  · have h := sortedScores_pairwise st (tokenize q)
    have hsub : pyTake k (sortedScores st (tokenize q)) <+ sortedScores st (tokenize q) := by
      rw [pyTake]
      split
      · exact List.take_sublist _ _
      · exact List.take_sublist _ _
    exact h.sublist hsub
  · intro hne
    rw [search, if_neg (by simpa [List.isEmpty_iff] using hne),
      if_neg (by simpa [List.isEmpty_iff] using hq)]

/-- C5 witness: the ranking property instantiated on the two-chunk index
with the query `"cat"` and `top_k = 2`. -/
theorem C5_ranking_stable_witness :
    (pyTake 2 (sortedScores stTwo (tokenize ("cat".toList)))).Pairwise rankedBefore ∧
      (stTwo.documents ≠ [] →
        search stTwo ("cat".toList) 2
          = (pyTake 2 (sortedScores stTwo (tokenize ("cat".toList)))).map fun si =>
            { stTwo.documents.getD si.2 emptyEntry with
                score := some si.1, tokens := none, tf := none }) :=
  C5_ranking_stable stTwo ("cat".toList) 2 (by decide)

end RagSystem
